import Mathlib

/-!
Verification of the Wim Hof breathing session engine
(source: src/src/WimHofBreathing.jsx).

The engine is embedded as a timed state machine.  Timers are modelled as an
explicit queue of pending callbacks with absolute due times (milliseconds) and
registration ids; the two React refs intervalRef and timeoutRef hold the ids of
the tracked interval and timeout, exactly as in the source.  Anonymous
setTimeout calls whose handle the source discards (the 300 ms breathing
lead-in, the 800 ms pause before Retention, the 300 ms pause before RoundDone)
are entered in the queue but tracked by no ref, mirroring the code.  Firing is
deterministic: the pending timer with the earliest due time (ties by
registration order) fires next, which is the single-threaded event-loop
semantics.  The local closure variable count of startBreathingPhase is kept
equal to the React state breathCount, which the source maintains via
setBreathCount(count) after every increment.
-/

set_option maxHeartbeats 1000000
set_option maxRecDepth 100000

/-- The PHASE constants of the source. -/
inductive Phase where
  | setup
  | breathing
  | retention
  | recovery
  | roundDone
  | complete
deriving DecidableEq, Repr

/-- The named audio cues of the AudioEngine. -/
inductive Cue where
  | inhale
  | exhale
  | holdStart
  | recoveryIn
  | roundComplete
  | sessionComplete
  | tick
  | countdownBeep
deriving DecidableEq, Repr

/-- A persisted session record (the object literal built in nextRound).
Dates are day indices; times are epoch milliseconds. -/
structure SessionRecord where
  date : Nat
  rounds : Nat
  breathsPerRound : Nat
  retentions : List Nat
  duration : Nat
  timestamp : Nat
deriving DecidableEq, Repr

/-- The distinct timer callbacks the source registers. -/
inductive TimerCb where
  | breathCycle
  | exhaleStep
  | toRetention
  | retentionTick
  | recoveryTick
  | toRoundDone
deriving DecidableEq, Repr

/-- A pending timer: registration id, absolute due time (ms), repeat period
for setInterval registrations, and the callback. -/
structure Timer where
  id : Nat
  due : Nat
  period : Option Nat
  cb : TimerCb
deriving DecidableEq, Repr

/-- The component state: React state hooks, the timer queue, the two timer
refs, the persisted blob (stored), the wall clock (now) and a log of fired
cues. -/
structure EngineState where
  phase : Phase
  rounds : Nat
  breathsPerRound : Nat
  currentRound : Nat
  breathCount : Nat
  isInhale : Bool
  retentionTime : Nat
  recoveryCountdown : Nat
  roundRetentions : List Nat
  sessions : List SessionRecord
  stored : List SessionRecord
  sessionStart : Nat
  now : Nat
  timers : List Timer
  nextId : Nat
  intervalRef : Option Nat
  timeoutRef : Option Nat
  cues : List Cue
deriving DecidableEq, Repr

/-- AudioEngine call: append the cue to the log. -/
def fireCue (s : EngineState) (c : Cue) : EngineState :=
  { s with cues := s.cues ++ [c] }

/-- setTimeout: register a one-shot timer, returning its id. -/
def setTimeoutT (s : EngineState) (delay : Nat) (cb : TimerCb) : EngineState × Nat :=
  ({ s with
      timers := s.timers ++ [{ id := s.nextId, due := s.now + delay, period := none, cb := cb }],
      nextId := s.nextId + 1 },
   s.nextId)

/-- setInterval: register a repeating timer, returning its id. -/
def setIntervalT (s : EngineState) (p : Nat) (cb : TimerCb) : EngineState × Nat :=
  ({ s with
      timers := s.timers ++ [{ id := s.nextId, due := s.now + p, period := some p, cb := cb }],
      nextId := s.nextId + 1 },
   s.nextId)

/-- clearTimers: cancel the interval and timeout held in the two refs, then
null the refs.  Timers whose handle was discarded are not touched. -/
def clearTimers (s : EngineState) : EngineState :=
  { s with
      timers := s.timers.filter
        (fun t => decide (¬(s.intervalRef = some t.id ∨ s.timeoutRef = some t.id))),
      intervalRef := none,
      timeoutRef := none }

/-- The retention useEffect body, run on entry to Retention: clear timers and
start the 1 s retention counter interval. -/
def runRetentionEffect (s : EngineState) : EngineState :=
  if s.phase = Phase.retention then
    let s1 := clearTimers s
    let r := setIntervalT s1 1000 TimerCb.retentionTick
    { r.1 with intervalRef := some r.2 }
  else s

/-- The recovery useEffect body, run on entry to Recovery: reset the countdown
to 15, play recoveryIn, clear timers, start the 1 s countdown interval. -/
def runRecoveryEffect (s : EngineState) : EngineState :=
  if s.phase = Phase.recovery then
    let s1 := fireCue { s with recoveryCountdown := 15 } Cue.recoveryIn
    let s2 := clearTimers s1
    let r := setIntervalT s2 1000 TimerCb.recoveryTick
    { r.1 with intervalRef := some r.2 }
  else s

/-- The breathCycle callback: guarded by a current-phase check; plays inhale
and schedules the exhale half-cycle after 2000 ms in timeoutRef. -/
def runBreathCycle (s : EngineState) : EngineState :=
  if s.phase = Phase.breathing then
    let s1 := fireCue { s with isInhale := true } Cue.inhale
    let r := setTimeoutT s1 2000 TimerCb.exhaleStep
    { r.1 with timeoutRef := some r.2 }
  else s

/-- The inner exhale callback: guarded by a current-phase check; plays exhale,
increments the count, and when the count reaches breathsPerRound cancels the
tracked timers and schedules an untracked 800 ms pause to Retention. -/
def runExhaleStep (s : EngineState) : EngineState :=
  if s.phase = Phase.breathing then
    let c := s.breathCount + 1
    let s1 := fireCue { s with isInhale := false, breathCount := c } Cue.exhale
    if s1.breathsPerRound ≤ c then
      let s2 := clearTimers s1
      (setTimeoutT s2 800 TimerCb.toRetention).1
    else s1
  else s

/-- The 800 ms pause callback: no phase guard in the source; unconditionally
enters Retention, zeroes retentionTime and plays holdStart; the retention
effect then runs. -/
def runToRetention (s : EngineState) : EngineState :=
  runRetentionEffect (fireCue { s with phase := Phase.retention, retentionTime := 0 } Cue.holdStart)

/-- The retention interval callback: increment retentionTime, play tick at
every positive multiple of 60 s. -/
def runRetentionTick (s : EngineState) : EngineState :=
  let t := s.retentionTime + 1
  let s1 := if t % 60 = 0 then fireCue s Cue.tick else s
  { s1 with retentionTime := t }

/-- The recovery interval callback: at count at most 1, cancel timers, play
roundComplete, schedule an untracked 300 ms pause to RoundDone, and floor the
count at 0; otherwise beep when the pre-decrement count is at most 4, then
decrement. -/
def runRecoveryTick (s : EngineState) : EngineState :=
  let c := s.recoveryCountdown
  if c ≤ 1 then
    let s1 := fireCue (clearTimers s) Cue.roundComplete
    let s2 := (setTimeoutT s1 300 TimerCb.toRoundDone).1
    { s2 with recoveryCountdown := 0 }
  else
    let s1 := if c ≤ 4 then fireCue s Cue.countdownBeep else s
    { s1 with recoveryCountdown := c - 1 }

/-- The 300 ms pause callback after recovery: no phase guard in the source;
unconditionally enters RoundDone. -/
def runToRoundDone (s : EngineState) : EngineState :=
  { s with phase := Phase.roundDone }

/-- Dispatch a timer callback. -/
def runCb : TimerCb → EngineState → EngineState
  | .breathCycle => runBreathCycle
  | .exhaleStep => runExhaleStep
  | .toRetention => runToRetention
  | .retentionTick => runRetentionTick
  | .recoveryTick => runRecoveryTick
  | .toRoundDone => runToRoundDone

/-- Strictly earlier in the event loop order: smaller due time, ties broken by
registration id. -/
def earlier (t u : Timer) : Prop :=
  t.due < u.due ∨ (t.due = u.due ∧ t.id < u.id)

instance (t u : Timer) : Decidable (earlier t u) := by
  unfold earlier; infer_instance

/-- The pending timer that fires next. -/
def nextTimer : List Timer → Option Timer
  | [] => none
  | t :: ts =>
    match nextTimer ts with
    | none => some t
    | some u => if earlier u t then some u else some t

/-- Fire the next due timer: advance the clock to its due time, remove it
(one-shot) or re-arm it (interval), then run its callback. -/
def fireNext (s : EngineState) : EngineState :=
  match nextTimer s.timers with
  | none => s
  | some t =>
    runCb t.cb
      { s with
          now := max s.now t.due,
          timers :=
            match t.period with
            | none => s.timers.filter (fun u => decide (u.id ≠ t.id))
            | some p => s.timers.map
                (fun u => if u.id = t.id then { u with due := t.due + p } else u) }

/-- startBreathingPhase: enter Breathing, reset the count, clear timers,
schedule the untracked 300 ms lead-in and the tracked 4000 ms cycle
interval. -/
def startBreathingPhase (s : EngineState) : EngineState :=
  let s1 := clearTimers { s with phase := Phase.breathing, breathCount := 0, isInhale := true }
  let r1 := setTimeoutT s1 300 TimerCb.breathCycle
  let r2 := setIntervalT r1.1 4000 TimerCb.breathCycle
  { r2.1 with intervalRef := some r2.2 }

/-- startSession: round 1, clear retentions, stamp the start time, begin
breathing. -/
def startSession (s : EngineState) : EngineState :=
  startBreathingPhase { s with currentRound := 1, roundRetentions := [], sessionStart := s.now }

/-- endRetention: a no-op unless the phase is Retention; otherwise clear
timers, append the current retention time, enter Recovery (whose effect then
runs). -/
def endRetention (s : EngineState) : EngineState :=
  if s.phase = Phase.retention then
    let s1 := clearTimers s
    let s2 := { s1 with
        roundRetentions := s1.roundRetentions ++ [s1.retentionTime],
        phase := Phase.recovery }
    runRecoveryEffect s2
  else s

def msPerDay : Nat := 86400000

/-- todayStr: the calendar day of an epoch-milliseconds instant. -/
def todayOf (now : Nat) : Nat := now / msPerDay

/-- Math.round of a nonnegative millisecond quantity divided by 1000. -/
def jsRoundSec (ms : Nat) : Nat := (ms + 500) / 1000

/-- The session record object literal built in nextRound. -/
def mkSessionRecord (s : EngineState) : SessionRecord :=
  { date := todayOf s.now
    rounds := s.rounds
    breathsPerRound := s.breathsPerRound
    retentions := s.roundRetentions
    duration := jsRoundSec (s.now - s.sessionStart)
    timestamp := s.now }

/-- nextRound: no phase check in the source.  On the last round build the
record, append it, persist the new blob, play sessionComplete, enter Complete;
otherwise increment the round and re-enter Breathing. -/
def nextRound (s : EngineState) : EngineState :=
  if s.rounds ≤ s.currentRound then
    let newSessions := s.sessions ++ [mkSessionRecord s]
    let s1 := { s with sessions := newSessions, stored := newSessions }
    fireCue { s1 with phase := Phase.complete } Cue.sessionComplete
  else
    startBreathingPhase { s with currentRound := s.currentRound + 1 }

/-- resetToSetup (quit / done): clear the tracked timers and return to Setup
with cleared transient session state; configuration and history untouched. -/
def resetToSetup (s : EngineState) : EngineState :=
  { clearTimers s with
      phase := Phase.setup
      currentRound := 0
      breathCount := 0
      retentionTime := 0
      roundRetentions := [] }

/-- The inputs that drive the engine: a timer firing, or one of the user
entry points. -/
inductive Event where
  | fire
  | startSession
  | endRetention
  | nextRound
  | quit
deriving DecidableEq, Repr

/-- One engine step. -/
def step (s : EngineState) : Event → EngineState
  | .fire => fireNext s
  | .startSession => startSession s
  | .endRetention => endRetention s
  | .nextRound => nextRound s
  | .quit => resetToSetup s

/-- Run a list of events. -/
def runEvents (s : EngineState) (es : List Event) : EngineState :=
  es.foldl step s

/-- The state right after mount: Setup phase, defaults per the useState
initialisers, history loaded from storage. -/
def initState (rounds breaths : Nat) (stored0 : List SessionRecord) (now0 : Nat) : EngineState :=
  { phase := Phase.setup
    rounds := rounds
    breathsPerRound := breaths
    currentRound := 0
    breathCount := 0
    isInhale := true
    retentionTime := 0
    recoveryCountdown := 15
    roundRetentions := []
    sessions := stored0
    stored := stored0
    sessionStart := 0
    now := now0
    timers := []
    nextId := 0
    intervalRef := none
    timeoutRef := none
    cues := [] }

/-- The timer firings and user actions of one complete round whose retention
lasts n seconds: 2 fires per breath cycle, the 800 ms pause, n retention
ticks, the user tap, 15 recovery ticks, the 300 ms pause, the user advancing
past the round summary. -/
def roundEvents (br n : Nat) : List Event :=
  List.replicate (2 * br) Event.fire ++ [Event.fire] ++
  List.replicate n Event.fire ++ [Event.endRetention] ++
  List.replicate 15 Event.fire ++ [Event.fire, Event.nextRound]

/-- A whole session: start, then each round in turn with the given retention
durations. -/
def sessionEvents (br : Nat) (ns : List Nat) : List Event :=
  Event.startSession :: (ns.map (roundEvents br)).flatten

/-!
Streak computation (calcStreak in the source).  Calendar days are embedded as
integer day numbers: an ISO date string yyyy-mm-dd corresponds to its day
index, string comparison of such dates agrees with numeric comparison, and
new Date(a) - new Date(b) divided by 86400000 is the exact day difference.
-/

/-- Insert into a descending-sorted list (the sort().reverse() order). -/
def insertDesc (x : Int) : List Int → List Int
  | [] => [x]
  | y :: ys => if y ≤ x then x :: y :: ys else y :: insertDesc x ys

/-- Sort a list of day numbers in descending order. -/
def sortDesc (l : List Int) : List Int := l.foldr insertDesc []

/-- The loop of calcStreak: walk the tail of the descending date list,
counting while each consecutive pair of days differs by exactly 1, stopping
at the first gap. -/
def countChain : Int → List Int → Nat
  | _, [] => 0
  | prev, c :: cs => if prev - c = 1 then 1 + countChain c cs else 0

/-- The distinct day numbers present in the session history (the Set
construction), first occurrences kept. -/
def sessionDays (sessions : List SessionRecord) : List Int :=
  (sessions.map (fun r => (r.date : Int))).dedup

/-- calcStreak: 0 for an empty history; otherwise dedupe, sort descending,
require the most recent day to be today or yesterday, then count back while
consecutive days differ by exactly one. -/
def calcStreak (today : Int) (sessions : List SessionRecord) : Nat :=
  if sessions.isEmpty then 0
  else
    match sortDesc (sessionDays sessions) with
    | [] => 0
    | d0 :: rest =>
      if d0 = today ∨ d0 = today - 1 then 1 + countChain d0 rest else 0

/-- The largest element of a day list, if any. -/
def maxDay : List Int → Option Int
  | [] => none
  | x :: xs => some (xs.foldl max x)

/-- Length of the run of consecutive days present in the set, counting down
from a; fuel bounds the recursion. -/
def chainLen (days : List Int) : Int → Nat → Nat
  | _, 0 => 0
  | a, fuel + 1 => if a ∈ days then 1 + chainLen days (a - 1) fuel else 0

/-- The spec's description of the streak, written over the set of calendar
days present: take the most recent day, require it to be today or yesterday,
and count how many consecutive days ending at it are present. -/
def streakSpec (today : Int) (sessions : List SessionRecord) : Nat :=
  match maxDay (sessionDays sessions) with
  | none => 0
  | some m =>
    if m = today ∨ m = today - 1 then
      chainLen (sessionDays sessions) m (sessionDays sessions).length
    else 0

/-!  Shapes of the engine state along a normally driven session. -/

/-- Just after startBreathingPhase: the untracked 300 ms lead-in and the
tracked 4000 ms cycle interval are pending. -/
def StartShape (s : EngineState) (a b t : Nat) : Prop :=
  s.phase = Phase.breathing ∧ s.breathCount = 0 ∧ s.now = t ∧
  s.timers = [⟨a, t + 300, none, TimerCb.breathCycle⟩,
              ⟨b, t + 4000, some 4000, TimerCb.breathCycle⟩] ∧
  s.intervalRef = some b ∧ s.timeoutRef = none ∧ a < b ∧ b < s.nextId

/-- Between the inhale and the exhale of a cycle: the re-armed interval and
the tracked 2000 ms exhale timeout are pending; k cycles already complete. -/
def InhShape (s : EngineState) (k i j dI dE : Nat) : Prop :=
  s.phase = Phase.breathing ∧ s.breathCount = k ∧
  s.timers = [⟨i, dI, some 4000, TimerCb.breathCycle⟩,
              ⟨j, dE, none, TimerCb.exhaleStep⟩] ∧
  s.intervalRef = some i ∧ s.timeoutRef = some j ∧
  s.now ≤ dE ∧ dE < dI ∧ i ≠ j ∧ i < s.nextId ∧ j < s.nextId

/-- Between the exhale of cycle k and the next inhale: only the cycle
interval is pending. -/
def MidShape (s : EngineState) (k i dI : Nat) : Prop :=
  s.phase = Phase.breathing ∧ s.breathCount = k ∧
  s.timers = [⟨i, dI, some 4000, TimerCb.breathCycle⟩] ∧
  s.intervalRef = some i ∧ s.now ≤ dI ∧ i < s.nextId

/-- During the 800 ms pause after the last exhale: the schedule is cancelled
and only the untracked pause timer is pending. -/
def PauseShape (s : EngineState) (m d : Nat) : Prop :=
  s.phase = Phase.breathing ∧
  s.timers = [⟨m, d, none, TimerCb.toRetention⟩] ∧
  s.intervalRef = none ∧ s.timeoutRef = none ∧ s.now ≤ d

/-- During Retention: the 1 s retention counter interval is pending. -/
def RetShape (s : EngineState) (i dI : Nat) : Prop :=
  s.phase = Phase.retention ∧
  s.timers = [⟨i, dI, some 1000, TimerCb.retentionTick⟩] ∧
  s.intervalRef = some i ∧ s.timeoutRef = none ∧ s.now ≤ dI

/-- During Recovery: the 1 s countdown interval is pending. -/
def RecShape (s : EngineState) (i dI : Nat) : Prop :=
  s.phase = Phase.recovery ∧
  s.timers = [⟨i, dI, some 1000, TimerCb.recoveryTick⟩] ∧
  s.intervalRef = some i ∧ s.timeoutRef = none ∧ s.now ≤ dI

/-- During the 300 ms pause after the countdown hit 0: only the untracked
pause timer is pending. -/
def PostRecShape (s : EngineState) (m d : Nat) : Prop :=
  s.phase = Phase.recovery ∧
  s.timers = [⟨m, d, none, TimerCb.toRoundDone⟩] ∧
  s.intervalRef = none ∧ s.timeoutRef = none ∧ s.now ≤ d

/-- At the round summary: no timer is pending. -/
def DoneShape (s : EngineState) : Prop :=
  s.phase = Phase.roundDone ∧ s.timers = [] ∧
  s.intervalRef = none ∧ s.timeoutRef = none

/-!  Concrete demonstration runs (configuration: 1 round of 20 breaths,
empty history, clock starting at 0). -/

/-- After the 20th exhale the engine is inside the 800 ms pause; the user
quits here. -/
def quitDuringPause : EngineState :=
  resetToSetup (runEvents (initState 1 20 [] 0)
    (Event.startSession :: List.replicate 40 Event.fire))

/-- After the recovery countdown hit 0 the engine is inside the 300 ms pause;
the user quits here. -/
def quitDuringRoundPause : EngineState :=
  resetToSetup (runEvents (initState 1 20 [] 0)
    (Event.startSession :: (List.replicate 41 Event.fire ++ [Event.endRetention] ++
      List.replicate 15 Event.fire)))

/-- A full recovery phase driven to 0 (1 round of 20 breaths, retention ended
immediately). -/
def fullRecoveryRun : EngineState :=
  runEvents (initState 1 20 [] 0)
    (Event.startSession :: (List.replicate 41 Event.fire ++ [Event.endRetention] ++
      List.replicate 15 Event.fire))

/-- The state at entry to Retention in the demonstration run. -/
def retentionEntryDemo : EngineState :=
  runEvents (initState 1 20 [] 0) (Event.startSession :: List.replicate 41 Event.fire)

/-!  Basic run lemmas. -/

theorem runEvents_append (s : EngineState) (l1 l2 : List Event) :
    runEvents s (l1 ++ l2) = runEvents (runEvents s l1) l2 := by
  simp [runEvents, List.foldl_append]

theorem runEvents_replicate_fire (n : Nat) (s : EngineState) :
    runEvents s (List.replicate n Event.fire) = fireNext^[n] s := by
  induction n generalizing s with
  | zero => rfl
  | succ n ih =>
    rw [List.replicate_succ]
    show runEvents (step s Event.fire) (List.replicate n Event.fire) = _
    rw [ih, Function.iterate_succ_apply]
    rfl

theorem fireNext_empty (s : EngineState) (h : s.timers = []) : fireNext s = s := by
  unfold fireNext
  rw [h]
  rfl

/-- The configuration, round bookkeeping and history fields that no timer
callback touches. -/
theorem runCb_cfg (cb : TimerCb) (s : EngineState) :
    (runCb cb s).rounds = s.rounds ∧ (runCb cb s).breathsPerRound = s.breathsPerRound ∧
    (runCb cb s).currentRound = s.currentRound ∧
    (runCb cb s).roundRetentions = s.roundRetentions ∧
    (runCb cb s).sessions = s.sessions ∧ (runCb cb s).stored = s.stored ∧
    (runCb cb s).sessionStart = s.sessionStart := by
  cases cb <;>
    simp only [runCb, runBreathCycle, runExhaleStep, runToRetention, runRetentionTick,
      runRecoveryTick, runToRoundDone, runRetentionEffect, runRecoveryEffect,
      clearTimers, setTimeoutT, setIntervalT, fireCue] <;>
    first
      | (split_ifs <;> simp_all)
      | simp_all

theorem fireNext_cfg (s : EngineState) :
    (fireNext s).rounds = s.rounds ∧ (fireNext s).breathsPerRound = s.breathsPerRound ∧
    (fireNext s).currentRound = s.currentRound ∧
    (fireNext s).roundRetentions = s.roundRetentions ∧
    (fireNext s).sessions = s.sessions ∧ (fireNext s).stored = s.stored ∧
    (fireNext s).sessionStart = s.sessionStart := by
  unfold fireNext
  cases h : nextTimer s.timers with
  | none => simp
  | some t => exact runCb_cfg t.cb _

/-- The state at entry to Recovery in the demonstration run. -/
def recoveryEntryDemo : EngineState :=
  runEvents (initState 1 20 [] 0)
    (Event.startSession :: (List.replicate 41 Event.fire ++ [Event.endRetention]))

theorem start_fire (s : EngineState) (a b t : Nat) (h : StartShape s a b t) :
    InhShape (fireNext s) 0 b s.nextId (t + 4000) (t + 2300) ∧
    (fireNext s).cues = s.cues ++ [Cue.inhale] := by
  obtain ⟨hp, hc, hn, ht, hiv, hto, hab, hbn⟩ := h
  have hmax : max t (t + 300) = t + 300 := by omega
  have hba : ¬(b = a) := by omega
  unfold fireNext
  rw [ht, hn]
  simp only [nextTimer, earlier]
  rw [if_neg (by omega)]
  simp only [runCb, runBreathCycle, setTimeoutT, fireCue, hmax, hp,
    List.filter_cons, List.filter_nil, decide_eq_true_eq, ne_eq, ite_true, ite_false,
    decide_not, hba, decide_True, decide_False, Bool.not_true, Bool.not_false,
    not_false_eq_true, if_true, if_false, Bool.false_eq_true, List.singleton_append]
  unfold InhShape
  dsimp only
  refine ⟨⟨rfl, hc, ?_, hiv, rfl, by omega, by omega, by omega, by omega, by omega⟩, trivial⟩
  simp [Nat.add_assoc]


/-- Firing the cycle interval from a mid shape plays inhale and schedules the
next exhale. -/
theorem mid_fire (s : EngineState) (k i dI : Nat) (h : MidShape s k i dI) :
    InhShape (fireNext s) k i s.nextId (dI + 4000) (dI + 2000) ∧
    (fireNext s).cues = s.cues ++ [Cue.inhale] := by
  obtain ⟨hp, hc, ht, hiv, hnow, hin⟩ := h
  have hmax : max s.now dI = dI := by omega
  unfold fireNext
  rw [ht]
  simp only [nextTimer]
  simp only [runCb, runBreathCycle, setTimeoutT, fireCue, hmax, hp,
    List.map_cons, List.map_nil, ite_true, eq_self_iff_true, if_true]
  unfold InhShape
  dsimp only
  exact ⟨⟨by trivial, hc, by simp, hiv, by trivial, by omega, by omega, by omega, by omega, by omega⟩, by trivial⟩

/-- Firing the exhale timeout mid-round: exhale plays, the count increments,
and the cycle interval alone stays pending. -/
theorem inh_fire_mid (s : EngineState) (k i j dI dE : Nat) (h : InhShape s k i j dI dE)
    (hlt : k + 1 < s.breathsPerRound) :
    MidShape (fireNext s) (k + 1) i dI ∧
    (fireNext s).cues = s.cues ++ [Cue.exhale] := by
  obtain ⟨hp, hc, ht, hiv, hto, hnow, hde, hij, hin, hjn⟩ := h
  have hmax : max s.now dE = dE := by omega
  have hij' : ¬(i = j) := hij
  unfold fireNext
  rw [ht]
  simp only [nextTimer, earlier]
  rw [if_pos (by left; omega)]
  simp only [runCb, runExhaleStep, setTimeoutT, fireCue, clearTimers, hmax, hp, hc,
    List.filter_cons, List.filter_nil, decide_eq_true_eq, ne_eq, decide_not, hij',
    decide_True, decide_False, Bool.not_true, Bool.not_false, not_false_eq_true,
    ite_true, ite_false, if_true, if_false, Bool.false_eq_true, not_true_eq_false]
  rw [if_neg (by omega)]
  unfold MidShape
  dsimp only
  exact ⟨⟨by trivial, by trivial, by trivial, hiv, by omega, by omega⟩, by trivial⟩

/-- Firing the last exhale of a round: the count reaches breathsPerRound, the
tracked timers are cancelled, and the untracked 800 ms pause is scheduled. -/
theorem inh_fire_last (s : EngineState) (k i j dI dE : Nat) (h : InhShape s k i j dI dE)
    (hge : s.breathsPerRound ≤ k + 1) :
    PauseShape (fireNext s) s.nextId (dE + 800) ∧
    (fireNext s).breathCount = k + 1 ∧
    (fireNext s).cues = s.cues ++ [Cue.exhale] := by
  obtain ⟨hp, hc, ht, hiv, hto, hnow, hde, hij, hin, hjn⟩ := h
  have hmax : max s.now dE = dE := by omega
  have hij' : ¬(i = j) := hij
  unfold fireNext
  rw [ht]
  simp only [nextTimer, earlier]
  rw [if_pos (by left; omega)]
  simp only [runCb, runExhaleStep, setTimeoutT, fireCue, clearTimers, hmax, hp, hc, hiv, hto,
    List.filter_cons, List.filter_nil, decide_eq_true_eq, ne_eq, decide_not, hij',
    decide_True, decide_False, Bool.not_true, Bool.not_false, not_false_eq_true,
    ite_true, ite_false, if_true, if_false, Bool.false_eq_true, not_true_eq_false,
    Option.some.injEq, eq_self_iff_true, or_true, true_or, not_true, if_pos hge]
  unfold PauseShape
  dsimp only
  exact ⟨⟨by trivial, by simp, by trivial, by trivial, by omega⟩, by trivial, by trivial⟩

/-- Firing the untracked 800 ms pause enters Retention, zeroes the retention
counter, plays holdStart and starts the retention interval. -/
theorem pause_fire (s : EngineState) (m d : Nat) (h : PauseShape s m d) :
    RetShape (fireNext s) s.nextId (d + 1000) ∧
    (fireNext s).retentionTime = 0 ∧
    (fireNext s).cues = s.cues ++ [Cue.holdStart] ∧
    (fireNext s).breathCount = s.breathCount := by
  obtain ⟨hp, ht, hiv, hto, hnow⟩ := h
  have hmax : max s.now d = d := by omega
  unfold fireNext
  rw [ht]
  simp only [nextTimer]
  simp only [runCb, runToRetention, runRetentionEffect, clearTimers, setIntervalT, fireCue,
    hmax, hiv, hto, List.filter_cons, List.filter_nil, decide_eq_true_eq, ne_eq, decide_not,
    decide_True, decide_False, Bool.not_true, Bool.not_false, not_false_eq_true,
    ite_true, ite_false, if_true, if_false, Bool.false_eq_true, not_true_eq_false,
    eq_self_iff_true, List.nil_append]
  unfold RetShape
  dsimp only
  refine ⟨⟨by trivial, ?_, by trivial, by trivial, by omega⟩, by trivial, by trivial, by trivial⟩
  simp

/-- Firing the retention interval increments retentionTime by one second and
plays tick exactly at positive multiples of 60. -/
theorem ret_fire (s : EngineState) (i dI : Nat) (h : RetShape s i dI) :
    RetShape (fireNext s) i (dI + 1000) ∧
    (fireNext s).retentionTime = s.retentionTime + 1 ∧
    (fireNext s).breathCount = s.breathCount ∧
    (fireNext s).cues = s.cues ++
      (if (s.retentionTime + 1) % 60 = 0 then [Cue.tick] else []) := by
  obtain ⟨hp, ht, hiv, hto, hnow⟩ := h
  have hmax : max s.now dI = dI := by omega
  by_cases h60 : (s.retentionTime + 1) % 60 = 0 <;>
  · unfold fireNext
    rw [ht]
    simp only [nextTimer]
    simp only [runCb, runRetentionTick, fireCue, hmax, h60,
      List.map_cons, List.map_nil, ite_true, ite_false, if_true, if_false,
      eq_self_iff_true]
    unfold RetShape
    dsimp only
    exact ⟨⟨hp, by simp, hiv, hto, by omega⟩, by trivial, by trivial, by simp⟩

/-- endRetention during Retention: cancel the counter, append the held time,
enter Recovery; the recovery effect resets the countdown to 15, plays
recoveryIn and starts the countdown interval. -/
theorem endRet_fire (s : EngineState) (i dI : Nat) (h : RetShape s i dI) :
    RecShape (endRetention s) s.nextId (s.now + 1000) ∧
    (endRetention s).recoveryCountdown = 15 ∧
    (endRetention s).roundRetentions = s.roundRetentions ++ [s.retentionTime] ∧
    (endRetention s).cues = s.cues ++ [Cue.recoveryIn] ∧
    (endRetention s).rounds = s.rounds ∧
    (endRetention s).breathsPerRound = s.breathsPerRound ∧
    (endRetention s).currentRound = s.currentRound ∧
    (endRetention s).sessions = s.sessions ∧
    (endRetention s).stored = s.stored ∧
    (endRetention s).sessionStart = s.sessionStart ∧
    (endRetention s).now = s.now := by
  obtain ⟨hp, ht, hiv, hto, hnow⟩ := h
  unfold endRetention
  rw [if_pos hp]
  simp only [runRecoveryEffect, clearTimers, setIntervalT, fireCue, hiv, hto, ht,
    List.filter_cons, List.filter_nil, decide_eq_true_eq, ne_eq, decide_not,
    decide_True, decide_False, Bool.not_true, Bool.not_false, not_false_eq_true,
    ite_true, ite_false, if_true, if_false, Bool.false_eq_true, not_true_eq_false,
    eq_self_iff_true, Option.some.injEq, or_true, true_or, List.nil_append]
  unfold RecShape
  dsimp only
  refine ⟨⟨by trivial, ?_, by trivial, by trivial, by omega⟩, by trivial, by trivial,
    by trivial, by trivial, by trivial, by trivial, by trivial, by trivial, by trivial,
    by trivial⟩
  simp

/-- Firing the countdown interval at a pre-decrement count of at least 2:
decrement, and beep exactly when the pre-decrement count is at most 4. -/
theorem rec_fire_dec (s : EngineState) (i dI : Nat) (h : RecShape s i dI)
    (h2 : 2 ≤ s.recoveryCountdown) :
    RecShape (fireNext s) i (dI + 1000) ∧
    (fireNext s).recoveryCountdown = s.recoveryCountdown - 1 ∧
    (fireNext s).cues = s.cues ++
      (if s.recoveryCountdown ≤ 4 then [Cue.countdownBeep] else []) := by
  obtain ⟨hp, ht, hiv, hto, hnow⟩ := h
  have hmax : max s.now dI = dI := by omega
  by_cases h4 : s.recoveryCountdown ≤ 4 <;>
  · unfold fireNext
    rw [ht]
    simp only [nextTimer]
    simp only [runCb, runRecoveryTick, fireCue, hmax, h4,
      List.map_cons, List.map_nil, ite_true, ite_false, if_true, if_false,
      eq_self_iff_true]
    rw [if_neg (by omega)]
    unfold RecShape
    dsimp only
    exact ⟨⟨hp, by simp, hiv, hto, by omega⟩, by trivial, by simp⟩

/-- Firing the countdown interval at a pre-decrement count of at most 1:
cancel the timers, play roundComplete, floor the count at 0, and schedule the
untracked 300 ms pause to RoundDone. -/
theorem rec_fire_term (s : EngineState) (i dI : Nat) (h : RecShape s i dI)
    (h1 : s.recoveryCountdown ≤ 1) :
    PostRecShape (fireNext s) s.nextId (dI + 300) ∧
    (fireNext s).recoveryCountdown = 0 ∧
    (fireNext s).cues = s.cues ++ [Cue.roundComplete] := by
  obtain ⟨hp, ht, hiv, hto, hnow⟩ := h
  have hmax : max s.now dI = dI := by omega
  unfold fireNext
  rw [ht]
  simp only [nextTimer]
  simp only [runCb, runRecoveryTick, clearTimers, setTimeoutT, fireCue, hmax, hiv, hto,
    List.map_cons, List.map_nil, List.filter_cons, List.filter_nil,
    decide_eq_true_eq, ne_eq, decide_not,
    decide_True, decide_False, Bool.not_true, Bool.not_false, not_false_eq_true,
    ite_true, ite_false, if_true, if_false, Bool.false_eq_true, not_true_eq_false,
    eq_self_iff_true, Option.some.injEq, or_true, true_or, List.nil_append]
  rw [if_pos h1]
  unfold PostRecShape
  dsimp only
  refine ⟨⟨by trivial, ?_, by trivial, by trivial, by omega⟩, by trivial, by trivial⟩
  simp

/-- Firing the untracked 300 ms pause enters RoundDone with no timer
pending. -/
theorem postrec_fire (s : EngineState) (m d : Nat) (h : PostRecShape s m d) :
    DoneShape (fireNext s) ∧
    (fireNext s).recoveryCountdown = s.recoveryCountdown ∧
    (fireNext s).cues = s.cues := by
  obtain ⟨hp, ht, hiv, hto, hnow⟩ := h
  have hmax : max s.now d = d := by omega
  unfold fireNext
  rw [ht]
  simp only [nextTimer]
  simp only [runCb, runToRoundDone, hmax,
    List.filter_cons, List.filter_nil, decide_eq_true_eq, ne_eq, decide_not,
    decide_True, decide_False, Bool.not_true, Bool.not_false, not_false_eq_true,
    ite_true, ite_false, if_true, if_false, Bool.false_eq_true, not_true_eq_false,
    eq_self_iff_true]
  unfold DoneShape
  dsimp only
  exact ⟨⟨by trivial, by simp, hiv, hto⟩, by trivial, by trivial⟩

/-- startBreathingPhase from a state with an empty timer queue and cleared
refs yields the start shape. -/
theorem startBreathing_shape (s : EngineState)
    (ht : s.timers = []) (hiv : s.intervalRef = none) (hto : s.timeoutRef = none) :
    StartShape (startBreathingPhase s) s.nextId (s.nextId + 1) s.now ∧
    (startBreathingPhase s).cues = s.cues ∧
    (startBreathingPhase s).rounds = s.rounds ∧
    (startBreathingPhase s).breathsPerRound = s.breathsPerRound ∧
    (startBreathingPhase s).currentRound = s.currentRound ∧
    (startBreathingPhase s).roundRetentions = s.roundRetentions ∧
    (startBreathingPhase s).sessions = s.sessions ∧
    (startBreathingPhase s).stored = s.stored ∧
    (startBreathingPhase s).sessionStart = s.sessionStart ∧
    (startBreathingPhase s).now = s.now := by
  unfold startBreathingPhase
  simp only [clearTimers, setTimeoutT, setIntervalT, fireCue, ht, hiv, hto,
    List.filter_nil, List.nil_append]
  unfold StartShape
  dsimp only
  exact ⟨⟨by trivial, by trivial, by trivial, by simp, by trivial, by trivial,
    by omega, by omega⟩, by trivial, by trivial, by trivial, by trivial, by trivial,
    by trivial, by trivial, by trivial, by trivial⟩

/-- nextRound with the final round reached: build, append and persist the
record, play sessionComplete, enter Complete; everything else untouched. -/
theorem nextRound_complete (s : EngineState) (hge : s.rounds ≤ s.currentRound) :
    (nextRound s).phase = Phase.complete ∧
    (nextRound s).sessions = s.sessions ++ [mkSessionRecord s] ∧
    (nextRound s).stored = s.sessions ++ [mkSessionRecord s] ∧
    (nextRound s).cues = s.cues ++ [Cue.sessionComplete] ∧
    (nextRound s).currentRound = s.currentRound ∧
    (nextRound s).rounds = s.rounds ∧
    (nextRound s).breathsPerRound = s.breathsPerRound ∧
    (nextRound s).roundRetentions = s.roundRetentions ∧
    (nextRound s).sessionStart = s.sessionStart ∧
    (nextRound s).now = s.now ∧
    (nextRound s).timers = s.timers := by
  unfold nextRound
  rw [if_pos hge]
  dsimp only [fireCue]
  exact ⟨rfl, rfl, rfl, rfl, rfl, rfl, rfl, rfl, rfl, rfl, rfl⟩

/-- nextRound before the final round: increment the round and re-enter
Breathing. -/
theorem nextRound_next (s : EngineState) (hlt : s.currentRound < s.rounds) :
    nextRound s = startBreathingPhase { s with currentRound := s.currentRound + 1 } := by
  unfold nextRound
  rw [if_neg (by omega)]

/-- startSession from a state with no pending timers. -/
theorem startSession_shape (s : EngineState)
    (ht : s.timers = []) (hiv : s.intervalRef = none) (hto : s.timeoutRef = none) :
    StartShape (startSession s) s.nextId (s.nextId + 1) s.now ∧
    (startSession s).cues = s.cues ∧
    (startSession s).rounds = s.rounds ∧
    (startSession s).breathsPerRound = s.breathsPerRound ∧
    (startSession s).currentRound = 1 ∧
    (startSession s).roundRetentions = [] ∧
    (startSession s).sessions = s.sessions ∧
    (startSession s).stored = s.stored ∧
    (startSession s).sessionStart = s.now := by
  unfold startSession
  have h := startBreathing_shape
    { s with currentRound := 1, roundRetentions := [], sessionStart := s.now } ht hiv hto
  exact ⟨h.1, h.2.1, h.2.2.1, h.2.2.2.1, h.2.2.2.2.1, h.2.2.2.2.2.1, h.2.2.2.2.2.2.1,
    h.2.2.2.2.2.2.2.1, h.2.2.2.2.2.2.2.2.1⟩

/-- The frame fields are unchanged by any number of timer firings. -/
theorem fireN_cfg (s : EngineState) (n : Nat) :
    (fireNext^[n] s).rounds = s.rounds ∧
    (fireNext^[n] s).breathsPerRound = s.breathsPerRound ∧
    (fireNext^[n] s).currentRound = s.currentRound ∧
    (fireNext^[n] s).roundRetentions = s.roundRetentions ∧
    (fireNext^[n] s).sessions = s.sessions ∧
    (fireNext^[n] s).stored = s.stored ∧
    (fireNext^[n] s).sessionStart = s.sessionStart := by
  induction n with
  | zero => exact ⟨rfl, rfl, rfl, rfl, rfl, rfl, rfl⟩
  | succ n ih =>
    rw [Function.iterate_succ_apply']
    have h := fireNext_cfg (fireNext^[n] s)
    exact ⟨h.1.trans ih.1, h.2.1.trans ih.2.1, h.2.2.1.trans ih.2.2.1,
      h.2.2.2.1.trans ih.2.2.2.1, h.2.2.2.2.1.trans ih.2.2.2.2.1,
      h.2.2.2.2.2.1.trans ih.2.2.2.2.2.1, h.2.2.2.2.2.2.trans ih.2.2.2.2.2.2⟩

/-- A state with an empty timer queue is a fixed point of firing. -/
theorem fireN_empty (s : EngineState) (h : s.timers = []) (n : Nat) :
    fireNext^[n] s = s := by
  induction n with
  | zero => rfl
  | succ n ih => rw [Function.iterate_succ_apply', ih, fireNext_empty s h]

/-- After 2k+1 firings from the start shape the engine is mid-cycle k (k
completed cycles), provided cycle k+1 exists. -/
theorem breathe_cycles (s0 : EngineState) (a b t : Nat) (h : StartShape s0 a b t) :
    ∀ k, k + 1 ≤ s0.breathsPerRound →
      ∃ i j dI dE, InhShape (fireNext^[2 * k + 1] s0) k i j dI dE := by
  intro k
  induction k with
  | zero =>
    intro _
    exact ⟨b, s0.nextId, t + 4000, t + 2300, (start_fire s0 a b t h).1⟩
  | succ k ih =>
    intro hk1
    obtain ⟨i, j, dI, dE, hinh⟩ := ih (by omega)
    have hbr : (fireNext^[2 * k + 1] s0).breathsPerRound = s0.breathsPerRound :=
      (fireN_cfg s0 (2 * k + 1)).2.1
    have hmid := (inh_fire_mid _ k i j dI dE hinh (by omega)).1
    have hinh2 := (mid_fire _ (k + 1) i dI hmid).1
    have heq : fireNext^[2 * (k + 1) + 1] s0 =
        fireNext (fireNext (fireNext^[2 * k + 1] s0)) := by
      rw [show 2 * (k + 1) + 1 = (2 * k + 1) + 1 + 1 by ring,
        Function.iterate_succ_apply', Function.iterate_succ_apply']
    rw [heq]
    exact ⟨i, _, dI + 4000, dI + 2000, hinh2⟩

/-- After 2k firings (1 ≤ k < breathsPerRound) exactly k cycles are complete
and only the cycle interval is pending. -/
theorem breathe_mids (s0 : EngineState) (a b t : Nat) (h : StartShape s0 a b t) :
    ∀ k, 1 ≤ k → k + 1 ≤ s0.breathsPerRound →
      ∃ i dI, MidShape (fireNext^[2 * k] s0) k i dI := by
  intro k h1 hk1
  obtain ⟨k', rfl⟩ : ∃ k', k = k' + 1 := ⟨k - 1, by omega⟩
  obtain ⟨i, j, dI, dE, hinh⟩ := breathe_cycles s0 a b t h k' (by omega)
  have hbr : (fireNext^[2 * k' + 1] s0).breathsPerRound = s0.breathsPerRound :=
    (fireN_cfg s0 (2 * k' + 1)).2.1
  have hmid := (inh_fire_mid _ k' i j dI dE hinh (by omega)).1
  have heq : fireNext^[2 * (k' + 1)] s0 = fireNext (fireNext^[2 * k' + 1] s0) := by
    rw [show 2 * (k' + 1) = (2 * k' + 1) + 1 by ring, Function.iterate_succ_apply']
  rw [heq]
  exact ⟨i, dI, hmid⟩

/-- After 2·breathsPerRound firings the round's breathing is over: the count
equals breathsPerRound, the schedule is cancelled, and only the untracked
800 ms pause is pending. -/
theorem breathe_pause (s0 : EngineState) (a b t : Nat) (h : StartShape s0 a b t)
    (hbr1 : 1 ≤ s0.breathsPerRound) :
    ∃ m d, PauseShape (fireNext^[2 * s0.breathsPerRound] s0) m d ∧
      (fireNext^[2 * s0.breathsPerRound] s0).breathCount = s0.breathsPerRound := by
  obtain ⟨k', hk'⟩ : ∃ k', s0.breathsPerRound = k' + 1 := ⟨s0.breathsPerRound - 1, by omega⟩
  obtain ⟨i, j, dI, dE, hinh⟩ := breathe_cycles s0 a b t h k' (by omega)
  have hbr : (fireNext^[2 * k' + 1] s0).breathsPerRound = s0.breathsPerRound :=
    (fireN_cfg s0 (2 * k' + 1)).2.1
  have hlast := inh_fire_last _ k' i j dI dE hinh (by omega)
  have heq : fireNext^[2 * s0.breathsPerRound] s0 =
      fireNext (fireNext^[2 * k' + 1] s0) := by
    rw [show 2 * s0.breathsPerRound = (2 * k' + 1) + 1 by omega,
      Function.iterate_succ_apply']
  rw [heq]
  exact ⟨_, dE + 800, hlast.1, by rw [hlast.2.1]; omega⟩

/-- Any number of retention-counter firings: still in Retention, the counter
having advanced one second per firing. -/
theorem ret_iter (n : Nat) (s : EngineState) (i dI : Nat) (h : RetShape s i dI) :
    ∃ dI', RetShape (fireNext^[n] s) i dI' ∧
      (fireNext^[n] s).retentionTime = s.retentionTime + n ∧
      (fireNext^[n] s).breathCount = s.breathCount := by
  induction n with
  | zero => exact ⟨dI, h, rfl, rfl⟩
  | succ n ih =>
    obtain ⟨dI', hsh, hrt, hbc⟩ := ih
    rw [Function.iterate_succ_apply']
    obtain ⟨hsh', hrt', hbc', _⟩ := ret_fire _ i dI' hsh
    exact ⟨dI' + 1000, hsh', by rw [hrt', hrt]; ring, by rw [hbc', hbc]⟩

/-- Repeated countdown firings while at least one second would remain: still in
Recovery with the countdown reduced by k. -/
theorem rec_iter (k : Nat) (s : EngineState) (i dI : Nat) (h : RecShape s i dI)
    (hk : k + 1 ≤ s.recoveryCountdown) :
    ∃ dI', RecShape (fireNext^[k] s) i dI' ∧
      (fireNext^[k] s).recoveryCountdown = s.recoveryCountdown - k := by
  induction k with
  | zero => exact ⟨dI, h, rfl⟩
  | succ k ih =>
    obtain ⟨dI', hsh, hcd⟩ := ih (by omega)
    rw [Function.iterate_succ_apply']
    obtain ⟨hsh', hcd', _⟩ := rec_fire_dec _ i dI' hsh (by omega)
    exact ⟨dI' + 1000, hsh', by rw [hcd', hcd]; omega⟩

theorem round_split (s : EngineState) (br n : Nat) :
    runEvents s (roundEvents br n) =
      nextRound (fireNext (fireNext^[15] (endRetention
        (fireNext^[n] (fireNext (fireNext^[2 * br] s)))))) := by
  unfold roundEvents
  rw [runEvents_append, runEvents_append, runEvents_append, runEvents_append, runEvents_append,
    runEvents_replicate_fire, runEvents_replicate_fire, runEvents_replicate_fire]
  simp only [runEvents, List.foldl_cons, List.foldl_nil, step]

/-- Driving one full round from the start shape: on the last round the engine
completes and persists exactly one new record; otherwise it re-enters
Breathing for the next round. -/
theorem round_run (s : EngineState) (a b t br n : Nat) (h : StartShape s a b t)
    (hbr : s.breathsPerRound = br) (h1 : 1 ≤ br) :
    (s.rounds ≤ s.currentRound →
      (runEvents s (roundEvents br n)).phase = Phase.complete ∧
      (runEvents s (roundEvents br n)).roundRetentions = s.roundRetentions ++ [n] ∧
      (runEvents s (roundEvents br n)).sessions = s.sessions ++
        [{ date := todayOf (runEvents s (roundEvents br n)).now,
           rounds := s.rounds, breathsPerRound := br,
           retentions := s.roundRetentions ++ [n],
           duration := jsRoundSec ((runEvents s (roundEvents br n)).now - s.sessionStart),
           timestamp := (runEvents s (roundEvents br n)).now }] ∧
      (runEvents s (roundEvents br n)).stored = (runEvents s (roundEvents br n)).sessions ∧
      (runEvents s (roundEvents br n)).timers = []) ∧
    (s.currentRound < s.rounds →
      ∃ a' b' t', StartShape (runEvents s (roundEvents br n)) a' b' t' ∧
      (runEvents s (roundEvents br n)).currentRound = s.currentRound + 1 ∧
      (runEvents s (roundEvents br n)).roundRetentions = s.roundRetentions ++ [n] ∧
      (runEvents s (roundEvents br n)).sessions = s.sessions ∧
      (runEvents s (roundEvents br n)).stored = s.stored ∧
      (runEvents s (roundEvents br n)).rounds = s.rounds ∧
      (runEvents s (roundEvents br n)).breathsPerRound = br ∧
      (runEvents s (roundEvents br n)).sessionStart = s.sessionStart) := by
  have hpause0 := breathe_pause s a b t h (by omega)
  rw [hbr] at hpause0
  obtain ⟨m, d, hpause, hcount⟩ := hpause0
  have hcfg1 := fireN_cfg s (2 * br)
  obtain ⟨hret2, hrt2, hcue2, hbc2⟩ := pause_fire _ m d hpause
  have hcfg2 := fireNext_cfg (fireNext^[2 * br] s)
  obtain ⟨dI3, hret3, hrt3, hbc3⟩ :=
    ret_iter n _ (fireNext^[2 * br] s).nextId (d + 1000) hret2
  have hcfg3 := fireN_cfg (fireNext (fireNext^[2 * br] s)) n
  obtain ⟨hrec4, hcd4, hrr4, hcue4, hro4, hbp4, hcr4, hse4, hst4, hss4, hnow4⟩ :=
    endRet_fire _ _ dI3 hret3
  obtain ⟨dI5, hrec5, hcd5⟩ := rec_iter 14 _ _ _ hrec4 (by rw [hcd4])
  have hcfg5 := fireN_cfg (endRetention (fireNext^[n] (fireNext (fireNext^[2 * br] s)))) 14
  obtain ⟨hpost6, hcd6, hcue6⟩ := rec_fire_term _ _ dI5 hrec5 (by rw [hcd5, hcd4])
  have hcfg6 := fireNext_cfg (fireNext^[14] (endRetention (fireNext^[n] (fireNext (fireNext^[2 * br] s)))))
  obtain ⟨hdone7, hcd7, hcue7⟩ := postrec_fire _ _ _ hpost6
  have hcfg7 := fireNext_cfg (fireNext (fireNext^[14] (endRetention (fireNext^[n] (fireNext (fireNext^[2 * br] s))))))
  have h15 : fireNext^[15] (endRetention (fireNext^[n] (fireNext (fireNext^[2 * br] s)))) =
      fireNext (fireNext^[14] (endRetention (fireNext^[n] (fireNext (fireNext^[2 * br] s))))) := by
    rw [show (15 : Nat) = 14 + 1 by rfl, Function.iterate_succ_apply']
  rw [round_split]
  rw [h15]
  have hro : (fireNext (fireNext (fireNext^[14] (endRetention (fireNext^[n] (fireNext (fireNext^[2 * br] s))))))).rounds = s.rounds := by
    simp only [hcfg7.1, hcfg6.1, hcfg5.1, hro4, hcfg3.1, hcfg2.1, hcfg1.1]
  have hbp : (fireNext (fireNext (fireNext^[14] (endRetention (fireNext^[n] (fireNext (fireNext^[2 * br] s))))))).breathsPerRound = br := by
    simp only [hcfg7.2.1, hcfg6.2.1, hcfg5.2.1, hbp4, hcfg3.2.1, hcfg2.2.1, hcfg1.2.1, hbr]
  have hcr : (fireNext (fireNext (fireNext^[14] (endRetention (fireNext^[n] (fireNext (fireNext^[2 * br] s))))))).currentRound = s.currentRound := by
    simp only [hcfg7.2.2.1, hcfg6.2.2.1, hcfg5.2.2.1, hcr4, hcfg3.2.2.1, hcfg2.2.2.1,
      hcfg1.2.2.1]
  have hrr : (fireNext (fireNext (fireNext^[14] (endRetention (fireNext^[n] (fireNext (fireNext^[2 * br] s))))))).roundRetentions = s.roundRetentions ++ [n] := by
    simp only [hcfg7.2.2.2.1, hcfg6.2.2.2.1, hcfg5.2.2.2.1, hrr4, hrt3, hrt2,
      hcfg3.2.2.2.1, hcfg2.2.2.2.1, hcfg1.2.2.2.1, Nat.zero_add]
  have hsess : (fireNext (fireNext (fireNext^[14] (endRetention (fireNext^[n] (fireNext (fireNext^[2 * br] s))))))).sessions = s.sessions := by
    simp only [hcfg7.2.2.2.2.1, hcfg6.2.2.2.2.1, hcfg5.2.2.2.2.1, hse4,
      hcfg3.2.2.2.2.1, hcfg2.2.2.2.2.1, hcfg1.2.2.2.2.1]
  have hstor : (fireNext (fireNext (fireNext^[14] (endRetention (fireNext^[n] (fireNext (fireNext^[2 * br] s))))))).stored = s.stored := by
    simp only [hcfg7.2.2.2.2.2.1, hcfg6.2.2.2.2.2.1, hcfg5.2.2.2.2.2.1, hst4,
      hcfg3.2.2.2.2.2.1, hcfg2.2.2.2.2.2.1, hcfg1.2.2.2.2.2.1]
  have hss : (fireNext (fireNext (fireNext^[14] (endRetention (fireNext^[n] (fireNext (fireNext^[2 * br] s))))))).sessionStart = s.sessionStart := by
    simp only [hcfg7.2.2.2.2.2.2, hcfg6.2.2.2.2.2.2, hcfg5.2.2.2.2.2.2, hss4,
      hcfg3.2.2.2.2.2.2, hcfg2.2.2.2.2.2.2, hcfg1.2.2.2.2.2.2]
  clear hcfg1 hcfg2 hcfg3 hcfg5 hcfg6 hcfg7 hcue2 hcue4 hcue6 hcue7 hcd4 hcd5 hcd6 hcd7
  clear hrt2 hrt3 hbc2 hbc3 hrr4 hro4 hbp4 hcr4 hse4 hst4 hss4 hnow4 hrec4 hrec5 hpost6
  clear hpause hcount hret2 hret3 h15
  generalize hgen : fireNext (fireNext (fireNext^[14] (endRetention (fireNext^[n] (fireNext (fireNext^[2 * br] s)))))) = s7 at hdone7 hro hbp hcr hrr hsess hstor hss ⊢
  constructor
  · intro hge
    obtain ⟨hph, hsesE, hstoE, hcueE, hcrE, hroE, hbpE, hrrE, hssE, hnowE, htimE⟩ :=
      nextRound_complete s7 (by rw [hcr, hro]; exact hge)
    refine ⟨hph, by rw [hrrE, hrr], ?_, by rw [hstoE, hsesE], by rw [htimE, hdone7.2.1]⟩
    rw [hsesE, hsess, hnowE]
    unfold mkSessionRecord
    rw [hro, hbp, hrr, hss]
  · intro hlt
    have hlt7 : s7.currentRound < s7.rounds := by rw [hcr, hro]; exact hlt
    rw [nextRound_next s7 hlt7]
    obtain ⟨hS, hcueS, hroS, hbpS, hcrS, hrrS, hsesS, hstoS, hssS, hnowS⟩ :=
      startBreathing_shape { s7 with currentRound := s7.currentRound + 1 }
        hdone7.2.1 hdone7.2.2.1 hdone7.2.2.2
    refine ⟨s7.nextId, s7.nextId + 1, s7.now, hS, ?_, ?_, ?_, ?_, ?_, ?_, ?_⟩
    · rw [hcrS]; show s7.currentRound + 1 = _; rw [hcr]
    · rw [hrrS]; exact hrr
    · rw [hsesS]; exact hsess
    · rw [hstoS]; exact hstor
    · rw [hroS]; exact hro
    · rw [hbpS]; exact hbp
    · rw [hssS]; exact hss

/-- Driving the remaining rounds from a start shape: the session completes
with all retention times recorded and exactly one record appended and
persisted. -/
theorem session_loop (ns : List Nat) : ∀ (s : EngineState) (a b t br : Nat),
    StartShape s a b t → s.breathsPerRound = br → 1 ≤ br →
    ns ≠ [] → s.currentRound + ns.length = s.rounds + 1 →
    (runEvents s ((ns.map (roundEvents br)).flatten)).phase = Phase.complete ∧
    (runEvents s ((ns.map (roundEvents br)).flatten)).roundRetentions =
      s.roundRetentions ++ ns ∧
    (runEvents s ((ns.map (roundEvents br)).flatten)).sessions = s.sessions ++
      [{ date := todayOf (runEvents s ((ns.map (roundEvents br)).flatten)).now,
         rounds := s.rounds, breathsPerRound := br,
         retentions := s.roundRetentions ++ ns,
         duration := jsRoundSec
           ((runEvents s ((ns.map (roundEvents br)).flatten)).now - s.sessionStart),
         timestamp := (runEvents s ((ns.map (roundEvents br)).flatten)).now }] ∧
    (runEvents s ((ns.map (roundEvents br)).flatten)).stored =
      (runEvents s ((ns.map (roundEvents br)).flatten)).sessions ∧
    (runEvents s ((ns.map (roundEvents br)).flatten)).timers = [] := by
  induction ns with
  | nil => intro s a b t br _ _ _ hne _; exact absurd rfl hne
  | cons n ns ih =>
    intro s a b t br hS hbr h1 _ hlen
    cases ns with
    | nil =>
      have hone : s.rounds ≤ s.currentRound := by
        simp only [List.length_cons, List.length_nil] at hlen; omega
      have hr := (round_run s a b t br n hS hbr h1).1 hone
      simp only [List.map_cons, List.map_nil, List.flatten_cons, List.flatten_nil,
        List.append_nil] at hr ⊢
      exact hr
    | cons n2 ns2 =>
      have hlt : s.currentRound < s.rounds := by
        simp only [List.length_cons] at hlen; omega
      obtain ⟨a', b', t', hS', hcr', hrr', hses', hsto', hro', hbp', hss'⟩ :=
        (round_run s a b t br n hS hbr h1).2 hlt
      have hstep : runEvents s ((List.map (roundEvents br) (n :: n2 :: ns2)).flatten) =
          runEvents (runEvents s (roundEvents br n))
            ((List.map (roundEvents br) (n2 :: ns2)).flatten) := by
        rw [List.map_cons, List.flatten_cons, runEvents_append]
      rw [hstep]
      have hmain := ih (runEvents s (roundEvents br n)) a' b' t' br hS' hbp' h1
        (by simp) (by rw [hcr', hro']; simp only [List.length_cons] at hlen ⊢; omega)
      refine ⟨hmain.1, ?_, ?_, hmain.2.2.2.1, hmain.2.2.2.2⟩
      · rw [hmain.2.1, hrr', List.append_assoc]
        rfl
      · rw [hmain.2.2.1, hses', hrr', hro', hss', List.append_assoc]
        rfl

/-- Claim C3: for every valid configuration (rounds 1..10, breaths per round
in twenty to sixty step five) and any per-round retention durations, driving a
session to completion yields Complete with exactly rounds entries in
roundRetentions, and appends exactly one record — carrying the configuration,
the final retentions, the rounded wall-clock duration, the completion day and
timestamp — to the history, which is persisted; prior records are
untouched. -/
theorem full_session_appends_one_record (rds br now0 : Nat) (S : List SessionRecord) (ns : List Nat)
    (h1 : 1 ≤ rds) (h2 : rds ≤ 10) (h3 : 20 ≤ br) (h4 : br ≤ 60) (h5 : br % 5 = 0)
    (hlen : ns.length = rds) :
    (runEvents (initState rds br S now0) (sessionEvents br ns)).phase = Phase.complete ∧
    (runEvents (initState rds br S now0) (sessionEvents br ns)).roundRetentions = ns ∧
    (runEvents (initState rds br S now0) (sessionEvents br ns)).sessions = S ++
      [{ date := todayOf (runEvents (initState rds br S now0) (sessionEvents br ns)).now,
         rounds := rds, breathsPerRound := br, retentions := ns,
         duration := jsRoundSec
           ((runEvents (initState rds br S now0) (sessionEvents br ns)).now - now0),
         timestamp := (runEvents (initState rds br S now0) (sessionEvents br ns)).now }] ∧
    (runEvents (initState rds br S now0) (sessionEvents br ns)).stored =
      (runEvents (initState rds br S now0) (sessionEvents br ns)).sessions := by
  have hstep : runEvents (initState rds br S now0) (sessionEvents br ns) =
      runEvents (startSession (initState rds br S now0))
        ((ns.map (roundEvents br)).flatten) := rfl
  rw [hstep]
  obtain ⟨hS, hcue, hro, hbp, hcr, hrr, hses, hsto, hssS⟩ :=
    startSession_shape (initState rds br S now0) rfl rfl rfl
  have hmain := session_loop ns (startSession (initState rds br S now0)) _ _ _ br hS
    (by rw [hbp]; rfl) (by omega)
    (by intro hnil; rw [hnil] at hlen; simp at hlen; omega)
    (by rw [hcr, hro]; show 1 + ns.length = rds + 1; omega)
  refine ⟨hmain.1, ?_, ?_, hmain.2.2.2.1⟩
  · rw [hmain.2.1, hrr]
    rfl
  · rw [hmain.2.2.1, hses, hrr, hro, hssS]
    rfl


theorem mem_insertDesc (x y : Int) (l : List Int) :
    x ∈ insertDesc y l ↔ x = y ∨ x ∈ l := by
  induction l with
  | nil => simp [insertDesc]
  | cons z zs ih =>
    unfold insertDesc
    split_ifs with hz
    · simp
    · simp only [List.mem_cons, ih]
      tauto

theorem pairwise_insertDesc (y : Int) (l : List Int)
    (hp : l.Pairwise (· > ·)) (hy : y ∉ l) :
    (insertDesc y l).Pairwise (· > ·) := by
  induction l with
  | nil => simp [insertDesc]
  | cons z zs ih =>
    rw [List.pairwise_cons] at hp
    unfold insertDesc
    split_ifs with hz
    · have hyz : z < y := by
        rcases lt_or_eq_of_le hz with h | h
        · exact h
        · exact absurd (by simp [h]) hy
      refine List.pairwise_cons.mpr ⟨?_, List.pairwise_cons.mpr ⟨hp.1, hp.2⟩⟩
      intro w hw
      rcases List.mem_cons.mp hw with h | h
      · omega
      · have := hp.1 w h
        omega
    · refine List.pairwise_cons.mpr ⟨?_, ih hp.2 (fun h => hy (List.mem_cons_of_mem z h))⟩
      intro w hw
      rcases (mem_insertDesc w y zs).mp hw with h | h
      · omega
      · exact hp.1 w h

theorem mem_sortDesc (x : Int) (l : List Int) : x ∈ sortDesc l ↔ x ∈ l := by
  induction l with
  | nil => simp [sortDesc]
  | cons z zs ih =>
    show x ∈ insertDesc z (sortDesc zs) ↔ _
    rw [mem_insertDesc, ih]
    simp

theorem pairwise_sortDesc (l : List Int) (h : l.Nodup) :
    (sortDesc l).Pairwise (· > ·) := by
  induction l with
  | nil => simp [sortDesc]
  | cons z zs ih =>
    rw [List.nodup_cons] at h
    exact pairwise_insertDesc z (sortDesc zs) (ih h.2)
      (fun hz => h.1 ((mem_sortDesc z zs).mp hz))

theorem length_sortDesc (l : List Int) : (sortDesc l).length = l.length := by
  induction l with
  | nil => rfl
  | cons z zs ih =>
    show (insertDesc z (sortDesc zs)).length = zs.length + 1
    rw [← ih]
    generalize sortDesc zs = m
    induction m with
    | nil => rfl
    | cons w ws ihm =>
      unfold insertDesc
      split_ifs
      · rfl
      · simpa using ihm

theorem chainLen_nil (a : Int) (f : Nat) : chainLen [] a f = 0 := by
  cases f <;> simp [chainLen]

theorem chainLen_not_mem (l : List Int) (a : Int) (f : Nat) (h : a ∉ l) :
    chainLen l a f = 0 := by
  cases f with
  | zero => rfl
  | succ f => simp [chainLen, h]

theorem chainLen_congr (l1 l2 : List Int) (hm : ∀ x, x ∈ l1 ↔ x ∈ l2) (a : Int) (f : Nat) :
    chainLen l1 a f = chainLen l2 a f := by
  induction f generalizing a with
  | zero => rfl
  | succ f ih =>
    simp only [chainLen, hm a]
    split_ifs
    · rw [ih]
    · rfl

theorem chainLen_head_lt (d : Int) (cs : List Int) (a : Int) (f : Nat) (h : a < d) :
    chainLen (d :: cs) a f = chainLen cs a f := by
  induction f generalizing a with
  | zero => rfl
  | succ f ih =>
    simp only [chainLen, List.mem_cons]
    have hne : ¬(a = d) := by omega
    simp only [hne, false_or]
    split_ifs
    · rw [ih (a - 1) (by omega)]
    · rfl

theorem chain_eq (cs : List Int) : ∀ (d : Int) (f : Nat),
    (d :: cs).Pairwise (· > ·) → cs.length + 1 ≤ f →
    chainLen (d :: cs) d f = 1 + countChain d cs := by
  induction cs with
  | nil =>
    intro d f _ hf
    obtain ⟨f', rfl⟩ : ∃ f', f = f' + 1 := ⟨f - 1, by omega⟩
    simp [chainLen, countChain, chainLen_nil, chainLen_head_lt d [] (d - 1) f' (by omega)]
  | cons c cs' ih =>
    intro d f hp hf
    obtain ⟨f', rfl⟩ : ∃ f', f = f' + 1 := ⟨f - 1, by omega⟩
    rw [List.pairwise_cons] at hp
    have hdc : c < d := hp.1 c (by simp)
    have hf' : cs'.length + 1 ≤ f' := by
      simp only [List.length_cons] at hf
      omega
    simp only [chainLen, List.mem_cons, countChain]
    rw [if_pos (Or.inl trivial)]
    rw [chainLen_head_lt d (c :: cs') (d - 1) f' (by omega)]
    by_cases hstep : d - c = 1
    · rw [if_pos hstep]
      have hceq : d - 1 = c := by omega
      rw [hceq, ih c f' hp.2 hf']
    · rw [if_neg hstep]
      have hnm : d - 1 ∉ c :: cs' := by
        intro hmem
        rcases List.mem_cons.mp hmem with h | h
        · omega
        · have := (List.pairwise_cons.mp hp.2).1 _ h
          omega
      rw [chainLen_not_mem _ _ _ hnm]

theorem fold_max_mem (x : Int) (xs : List Int) : xs.foldl max x ∈ x :: xs := by
  induction xs generalizing x with
  | nil => simp
  | cons y ys ih =>
    simp only [List.foldl_cons]
    rcases List.mem_cons.mp (ih (max x y)) with h | h
    · rw [h]
      rcases max_choice x y with hm | hm
      · exact List.mem_cons.mpr (Or.inl hm)
      · simp [hm]
    · simp [h]

theorem le_fold_base (x : Int) (xs : List Int) : x ≤ xs.foldl max x := by
  induction xs generalizing x with
  | nil => simp
  | cons z zs ih =>
    simp only [List.foldl_cons]
    exact le_trans (le_max_left x z) (ih (max x z))

theorem fold_max_le (x : Int) (xs : List Int) : ∀ y ∈ x :: xs, y ≤ xs.foldl max x := by
  induction xs generalizing x with
  | nil => simp
  | cons z zs ih =>
    intro y hy
    simp only [List.foldl_cons]
    rcases List.mem_cons.mp hy with h | h
    · rw [h]
      exact le_trans (le_max_left x z) (le_fold_base (max x z) zs)
    · rcases List.mem_cons.mp h with h2 | h2
      · rw [h2]
        exact le_trans (le_max_right x z) (le_fold_base (max x z) zs)
      · exact ih (max x z) y (List.mem_cons.mpr (Or.inr h2))

theorem maxDay_eq (l : List Int) (z : Int) (hz : z ∈ l) (hall : ∀ x ∈ l, x ≤ z) :
    maxDay l = some z := by
  cases l with
  | nil => simp at hz
  | cons x xs =>
    show some (xs.foldl max x) = some z
    have h1 : xs.foldl max x ≤ z := hall _ (fold_max_mem x xs)
    have h2 : z ≤ xs.foldl max x := fold_max_le x xs z hz
    rw [le_antisymm h1 h2]

/-- The source streak computation agrees with the specification's
description over the set of days. -/
theorem calcStreak_eq_spec (today : Int) (S : List SessionRecord) :
    calcStreak today S = streakSpec today S := by
  unfold calcStreak streakSpec
  by_cases hS : S.isEmpty
  · have : S = [] := List.isEmpty_iff.mp hS
    subst this
    simp [sessionDays, maxDay]
  · rw [if_neg hS]
    have hnd : (sessionDays S).Nodup := List.nodup_dedup _
    have hlen : (sortDesc (sessionDays S)).length = (sessionDays S).length :=
      length_sortDesc _
    cases hsort : sortDesc (sessionDays S) with
    | nil =>
      exfalso
      have hne : S ≠ [] := fun h => hS (by rw [h]; rfl)
      obtain ⟨r, hr⟩ := List.exists_mem_of_ne_nil S hne
      have : (r.date : Int) ∈ sessionDays S := by
        unfold sessionDays
        rw [List.mem_dedup]
        exact List.mem_map_of_mem _ hr
      have := (mem_sortDesc _ _).mpr this
      rw [hsort] at this
      simp at this
    | cons d0 rest =>
      have hpair : (d0 :: rest).Pairwise (· > ·) := by
        rw [← hsort]; exact pairwise_sortDesc _ hnd
      have hmem : ∀ x, x ∈ d0 :: rest ↔ x ∈ sessionDays S := by
        intro x
        rw [← hsort, mem_sortDesc]
      have hmax : maxDay (sessionDays S) = some d0 := by
        apply maxDay_eq
        · exact (hmem d0).mp (by simp)
        · intro x hx
          rcases List.mem_cons.mp ((hmem x).mpr hx) with h | h
          · omega
          · have := (List.pairwise_cons.mp hpair).1 x h
            omega
      rw [hmax]
      dsimp only
      split_ifs with hanchor
      · rw [← chainLen_congr (d0 :: rest) (sessionDays S) (fun x => hmem x) d0 _]
        rw [hsort] at hlen
        rw [← hlen]
        simp only [List.length_cons]
        rw [chain_eq rest d0 (rest.length + 1) hpair (le_refl _)]
      · rfl


/-- Claim C1: quitting during the 800 ms pause after the last exhale leaves
the untracked pause timer pending (clearTimers cannot cancel it), and when it
fires it moves the machine from Setup to Retention and plays holdStart; the
analogous 300 ms pause after recovery moves Setup to RoundDone.  This
contradicts the requirement that quitting cancels all outstanding timers and
that every callback checks the phase. -/
theorem quit_leaves_orphan_pause_timers :
    quitDuringPause.phase = Phase.setup ∧
    quitDuringPause.timers ≠ [] ∧
    (fireNext quitDuringPause).phase = Phase.retention ∧
    (fireNext quitDuringPause).cues = quitDuringPause.cues ++ [Cue.holdStart] ∧
    quitDuringRoundPause.phase = Phase.setup ∧
    quitDuringRoundPause.timers ≠ [] ∧
    (fireNext quitDuringRoundPause).phase = Phase.roundDone := by decide

/-- Claim C2 counterexample: a complete recovery countdown (reaching 0) fires
countdownBeep only three times, not four: no beep is played at
remaining-count 1, whose tick takes the round-complete branch instead. -/
theorem recovery_beeps_only_three :
    fullRecoveryRun.recoveryCountdown = 0 ∧
    fullRecoveryRun.phase = Phase.recovery ∧
    fullRecoveryRun.cues.count Cue.countdownBeep = 3 := by decide

/-- Claim C2 amended: during recovery the countdown before the k-th firing is
15 - k, and the firing adds a countdownBeep exactly when that pre-decrement
count lies in the inclusive range 2..4 (so beeps sound at 4, 3 and 2; at 1
the terminal branch plays roundComplete instead). -/
theorem recovery_beeps_at_four_three_two (s : EngineState) (i dI : Nat)
    (h : RecShape s i dI) (h15 : s.recoveryCountdown = 15) :
    ∀ k, k < 15 →
      (fireNext^[k] s).recoveryCountdown = 15 - k ∧
      (fireNext^[k + 1] s).cues.count Cue.countdownBeep =
        (fireNext^[k] s).cues.count Cue.countdownBeep +
          (if 2 ≤ 15 - k ∧ 15 - k ≤ 4 then 1 else 0) := by
  intro k hk
  by_cases hk13 : k ≤ 13
  · obtain ⟨dI', hsh, hcd⟩ := rec_iter k s i dI h (by omega)
    have hcd' : (fireNext^[k] s).recoveryCountdown = 15 - k := by rw [hcd, h15]
    refine ⟨hcd', ?_⟩
    obtain ⟨hsh', hcd2, hcue⟩ := rec_fire_dec _ i dI' hsh (by omega)
    rw [Function.iterate_succ_apply', hcue, hcd']
    by_cases h4 : 15 - k ≤ 4
    · rw [if_pos h4, if_pos ⟨by omega, h4⟩]
      simp
    · rw [if_neg h4, if_neg (by omega)]
      simp
  · have hk14 : k = 14 := by omega
    subst hk14
    obtain ⟨dI', hsh, hcd⟩ := rec_iter 14 s i dI h (by omega)
    refine ⟨by rw [hcd, h15], ?_⟩
    obtain ⟨hsh', hcd2, hcue⟩ := rec_fire_term _ i dI' hsh (by rw [hcd, h15])
    rw [Function.iterate_succ_apply', hcue]
    rw [if_neg (by omega)]
    simp

/-- Claim C4: quit (resetToSetup) from any state returns to Setup with the
round counter zeroed and retentions cleared, leaves the session history and
the persisted blob untouched, and preserves the configuration. -/
theorem quit_resets_and_preserves (s : EngineState) :
    (resetToSetup s).phase = Phase.setup ∧
    (resetToSetup s).currentRound = 0 ∧
    (resetToSetup s).roundRetentions = [] ∧
    (resetToSetup s).sessions = s.sessions ∧
    (resetToSetup s).stored = s.stored ∧
    (resetToSetup s).rounds = s.rounds ∧
    (resetToSetup s).breathsPerRound = s.breathsPerRound := by
  exact ⟨rfl, rfl, rfl, rfl, rfl, rfl, rfl⟩

/-- Claim C10: endRetention outside Retention is a complete no-op on the
whole engine state. -/
theorem endRetention_noop_outside_retention (s : EngineState)
    (h : s.phase ≠ Phase.retention) :
    endRetention s = s := by
  unfold endRetention
  rw [if_neg h]

theorem endRetention_noop_witness :
    endRetention (initState 3 40 [] 0) = initState 3 40 [] 0 :=
  endRetention_noop_outside_retention (initState 3 40 [] 0) (by decide)

/-- Claim C9: nextRound checks only the round counter, never the phase.  With
currentRound at or past rounds it appends and persists a record and enters
Complete even from Complete itself, so a second call appends a duplicate;
with currentRound below rounds it increments the round and enters
Breathing. -/
theorem nextRound_has_no_phase_guard (s : EngineState) :
    (s.rounds ≤ s.currentRound →
      (nextRound s).phase = Phase.complete ∧
      (nextRound s).sessions = s.sessions ++ [mkSessionRecord s] ∧
      (nextRound s).stored = s.sessions ++ [mkSessionRecord s] ∧
      (nextRound (nextRound s)).sessions =
        (s.sessions ++ [mkSessionRecord s]) ++ [mkSessionRecord (nextRound s)]) ∧
    (s.currentRound < s.rounds →
      (nextRound s).currentRound = s.currentRound + 1 ∧
      (nextRound s).phase = Phase.breathing) := by
  constructor
  · intro hge
    obtain ⟨hph, hses, hsto, hcue, hcr, hro, hbp, hrr, hss, hnow, htim⟩ :=
      nextRound_complete s hge
    refine ⟨hph, hses, hsto, ?_⟩
    obtain ⟨hph2, hses2, hsto2, _, _, _, _, _, _, _, _⟩ :=
      nextRound_complete (nextRound s) (by rw [hro, hcr]; exact hge)
    rw [hses2, hses]
  · intro hlt
    rw [nextRound_next s hlt]
    exact ⟨rfl, rfl⟩

theorem nextRound_no_phase_guard_witness :
    ((nextRound { initState 1 20 [] 0 with currentRound := 1, phase := Phase.complete }).phase =
        Phase.complete ∧
      (nextRound { initState 1 20 [] 0 with currentRound := 1, phase := Phase.complete }).sessions =
        ({ initState 1 20 [] 0 with currentRound := 1, phase := Phase.complete } : EngineState).sessions ++
          [mkSessionRecord { initState 1 20 [] 0 with currentRound := 1, phase := Phase.complete }] ∧
      (nextRound { initState 1 20 [] 0 with currentRound := 1, phase := Phase.complete }).stored =
        ({ initState 1 20 [] 0 with currentRound := 1, phase := Phase.complete } : EngineState).sessions ++
          [mkSessionRecord { initState 1 20 [] 0 with currentRound := 1, phase := Phase.complete }] ∧
      (nextRound (nextRound { initState 1 20 [] 0 with currentRound := 1, phase := Phase.complete })).sessions =
        (({ initState 1 20 [] 0 with currentRound := 1, phase := Phase.complete } : EngineState).sessions ++
          [mkSessionRecord { initState 1 20 [] 0 with currentRound := 1, phase := Phase.complete }]) ++
          [mkSessionRecord (nextRound { initState 1 20 [] 0 with currentRound := 1, phase := Phase.complete })]) ∧
    ((nextRound { initState 2 20 [] 0 with currentRound := 1 }).currentRound = 1 + 1 ∧
      (nextRound { initState 2 20 [] 0 with currentRound := 1 }).phase = Phase.breathing) :=
  ⟨(nextRound_has_no_phase_guard
      { initState 1 20 [] 0 with currentRound := 1, phase := Phase.complete }).1 (by decide),
    (nextRound_has_no_phase_guard { initState 2 20 [] 0 with currentRound := 1 }).2 (by decide)⟩

/-- Claim C5: from the start of a breathing round, the phase stays Breathing
through all 2·breathsPerRound half-cycle firings, the count never exceeds
breathsPerRound at any of these instants, after exactly breathsPerRound
completed cycles the periodic schedule is cancelled (only the untracked pause
remains), and the very next firing — not an earlier one — enters
Retention. -/
theorem breathing_exactly_n_cycles (s : EngineState) (a b t br : Nat)
    (h : StartShape s a b t) (hbr : s.breathsPerRound = br) (h1 : 1 ≤ br) :
    (∀ m, m ≤ 2 * br → (fireNext^[m] s).phase = Phase.breathing) ∧
    (∀ m, m ≤ 2 * br + 1 → (fireNext^[m] s).breathCount ≤ br) ∧
    (fireNext^[2 * br] s).breathCount = br ∧
    (fireNext^[2 * br] s).intervalRef = none ∧
    (∃ m0 d0, (fireNext^[2 * br] s).timers = [⟨m0, d0, none, TimerCb.toRetention⟩]) ∧
    (fireNext^[2 * br + 1] s).phase = Phase.retention := by
  obtain ⟨m0, d0, hpause, hcount⟩ := breathe_pause s a b t h (by omega)
  rw [hbr] at hpause hcount
  obtain ⟨hret, hrt0, hcueR, hbcR⟩ := pause_fire _ m0 d0 hpause
  have hsucc : fireNext^[2 * br + 1] s = fireNext (fireNext^[2 * br] s) := by
    rw [Function.iterate_succ_apply']
  have hphase : ∀ m, m ≤ 2 * br → (fireNext^[m] s).phase = Phase.breathing := by
    intro m hm
    rcases Nat.even_or_odd' m with ⟨k, hk | hk⟩
    · subst hk
      rcases Nat.eq_zero_or_pos k with hk0 | hkpos
      · subst hk0
        simpa using h.1
      · rcases eq_or_lt_of_le (show k ≤ br by omega) with hkbr | hkbr
        · subst hkbr
          exact hpause.1
        · obtain ⟨i, dI, hmid⟩ := breathe_mids s a b t h k (by omega) (by omega)
          exact hmid.1
    · subst hk
      obtain ⟨i, j, dI, dE, hinh⟩ := breathe_cycles s a b t h k (by omega)
      exact hinh.1
  have hcnt : ∀ m, m ≤ 2 * br + 1 → (fireNext^[m] s).breathCount ≤ br := by
    intro m hm
    rcases Nat.even_or_odd' m with ⟨k, hk | hk⟩
    · subst hk
      rcases Nat.eq_zero_or_pos k with hk0 | hkpos
      · subst hk0
        simp only [Nat.mul_zero, Function.iterate_zero, id_eq]
        rw [h.2.1]
        omega
      · rcases eq_or_lt_of_le (show k ≤ br by omega) with hkbr | hkbr
        · subst hkbr
          simp [hcount]
        · obtain ⟨i, dI, hmid⟩ := breathe_mids s a b t h k (by omega) (by omega)
          rw [hmid.2.1]
          omega
    · subst hk
      rcases eq_or_lt_of_le (show k ≤ br by omega) with hkbr | hkbr
      · subst hkbr
        rw [hsucc, hbcR]
        simp [hcount]
      · obtain ⟨i, j, dI, dE, hinh⟩ := breathe_cycles s a b t h k (by omega)
        rw [hinh.2.1]
        omega
  refine ⟨hphase, hcnt, hcount, hpause.2.2.1, ⟨m0, d0, hpause.2.1⟩, ?_⟩
  rw [hsucc]
  exact hret.1

/-- Witness for claim C5 at rounds = 1, breathsPerRound = 20: the start shape
reached by startSession, checked after 40 and 41 firings. -/
theorem breathing_exactly_n_cycles_witness :
    (fireNext^[2 * 20] (startSession (initState 1 20 [] 0))).breathCount = 20 ∧
    (fireNext^[2 * 20] (startSession (initState 1 20 [] 0))).intervalRef = none ∧
    (fireNext^[2 * 20 + 1] (startSession (initState 1 20 [] 0))).phase = Phase.retention := by
  have h := breathing_exactly_n_cycles (startSession (initState 1 20 [] 0)) 0 1 0 20
    (by refine ⟨?_, ?_, ?_, ?_, ?_, ?_, ?_, ?_⟩ <;> decide) (by decide) (by decide)
  exact ⟨h.2.2.1, h.2.2.2.1, h.2.2.2.2.2⟩

/-- Claim C6: a retention phase started at 0 stays in Retention with
retentionTime equal to the number of elapsed seconds for every n, and only an
explicit endRetention leaves it, appending the held time and moving to
Recovery. -/
theorem retention_unbounded_until_tap (s : EngineState) (i dI : Nat)
    (h : RetShape s i dI) (h0 : s.retentionTime = 0) :
    ∀ n : Nat,
      (fireNext^[n] s).phase = Phase.retention ∧
      (fireNext^[n] s).retentionTime = n ∧
      (endRetention (fireNext^[n] s)).phase = Phase.recovery ∧
      (endRetention (fireNext^[n] s)).roundRetentions = s.roundRetentions ++ [n] := by
  intro n
  obtain ⟨dI', hsh, hrt, _⟩ := ret_iter n s i dI h
  have hrtn : (fireNext^[n] s).retentionTime = n := by rw [hrt, h0]; omega
  obtain ⟨hrec, _, hrr, _⟩ := endRet_fire _ i dI' hsh
  refine ⟨hsh.1, hrtn, hrec.1, ?_⟩
  rw [hrr, hrtn, (fireN_cfg s n).2.2.2.1]

/-- Witness for claim C6 at the demonstration run's retention entry,
simulating 120 seconds. -/
theorem retention_unbounded_witness :
    (fireNext^[120] retentionEntryDemo).phase = Phase.retention ∧
    (fireNext^[120] retentionEntryDemo).retentionTime = 120 ∧
    (endRetention (fireNext^[120] retentionEntryDemo)).phase = Phase.recovery ∧
    (endRetention (fireNext^[120] retentionEntryDemo)).roundRetentions =
      retentionEntryDemo.roundRetentions ++ [120] :=
  retention_unbounded_until_tap retentionEntryDemo 23 79800
    (by refine ⟨?_, ?_, ?_, ?_, ?_⟩ <;> decide) (by decide) 120

/-- Claim C7: every entry to Recovery (via endRetention) resets the countdown
to 15 and immediately plays recoveryIn; thereafter the countdown after k
one-second firings is exactly 15 - k (truncated at 0), so it reaches 0 at the
15th tick and never goes below 0. -/
theorem recovery_countdown_fifteen_to_zero (s : EngineState) (i dI : Nat)
    (h : RetShape s i dI) :
    (endRetention s).recoveryCountdown = 15 ∧
    (endRetention s).cues = s.cues ++ [Cue.recoveryIn] ∧
    ∀ k : Nat, (fireNext^[k] (endRetention s)).recoveryCountdown = 15 - k := by
  obtain ⟨hrec, hcd, hrr, hcue, _⟩ := endRet_fire s i dI h
  refine ⟨hcd, hcue, ?_⟩
  intro k
  by_cases hk14 : k ≤ 14
  · obtain ⟨dI', hsh, hcdk⟩ := rec_iter k _ _ _ hrec (by omega)
    rw [hcdk, hcd]
  · obtain ⟨dI14, hsh14, hcd14⟩ := rec_iter 14 _ _ _ hrec (by omega)
    obtain ⟨hpost, hcd15, _⟩ := rec_fire_term _ _ dI14 hsh14 (by rw [hcd14, hcd])
    have h15eq : fireNext^[15] (endRetention s) =
        fireNext (fireNext^[14] (endRetention s)) := by
      rw [Function.iterate_succ_apply']
    obtain ⟨hdone, hcd16, _⟩ := postrec_fire _ _ _ hpost
    have h16eq2 : fireNext^[16] (endRetention s) =
        fireNext (fireNext (fireNext^[14] (endRetention s))) := by
      rw [show (16 : Nat) = 14 + 1 + 1 by rfl, Function.iterate_succ_apply',
        Function.iterate_succ_apply']
    rcases eq_or_lt_of_le (show 15 ≤ k by omega) with hk15 | hk16
    · rw [← hk15, h15eq, hcd15]
    · obtain ⟨j, hj⟩ : ∃ j, k = j + 16 := ⟨k - 16, by omega⟩
      subst hj
      rw [Function.iterate_add_apply, h16eq2, fireN_empty _ hdone.2.1 j, hcd16, hcd15]
      omega

/-- Witness for claim C7 at the demonstration run's retention entry. -/
theorem recovery_countdown_witness :
    (endRetention retentionEntryDemo).recoveryCountdown = 15 ∧
    (endRetention retentionEntryDemo).cues =
      retentionEntryDemo.cues ++ [Cue.recoveryIn] ∧
    (fireNext^[15] (endRetention retentionEntryDemo)).recoveryCountdown = 15 - 15 := by
  have h := recovery_countdown_fifteen_to_zero retentionEntryDemo 23 79800
    (by refine ⟨?_, ?_, ?_, ?_, ?_⟩ <;> decide)
  exact ⟨h.1, h.2.1, h.2.2 15⟩

/-- Witness for the amended claim C2 at the demonstration run's recovery
entry, at the firing whose pre-decrement count is 3. -/
theorem recovery_beeps_witness :
    (fireNext^[12] recoveryEntryDemo).recoveryCountdown = 15 - 12 ∧
    (fireNext^[12 + 1] recoveryEntryDemo).cues.count Cue.countdownBeep =
      (fireNext^[12] recoveryEntryDemo).cues.count Cue.countdownBeep +
        (if 2 ≤ 15 - 12 ∧ 15 - 12 ≤ 4 then 1 else 0) :=
  recovery_beeps_at_four_three_two recoveryEntryDemo 24 79800
    (by refine ⟨?_, ?_, ?_, ?_, ?_⟩ <;> decide) (by decide) 12 (by decide)

/-- Witness for claim C3: two rounds of twenty breaths with retention times 3
and 5 seconds. -/
theorem full_session_witness :
    (runEvents (initState 2 20 [] 0) (sessionEvents 20 [3, 5])).phase = Phase.complete ∧
    (runEvents (initState 2 20 [] 0) (sessionEvents 20 [3, 5])).roundRetentions = [3, 5] ∧
    (runEvents (initState 2 20 [] 0) (sessionEvents 20 [3, 5])).sessions = [] ++
      [{ date := todayOf (runEvents (initState 2 20 [] 0) (sessionEvents 20 [3, 5])).now,
         rounds := 2, breathsPerRound := 20, retentions := [3, 5],
         duration := jsRoundSec
           ((runEvents (initState 2 20 [] 0) (sessionEvents 20 [3, 5])).now - 0),
         timestamp := (runEvents (initState 2 20 [] 0) (sessionEvents 20 [3, 5])).now }] ∧
    (runEvents (initState 2 20 [] 0) (sessionEvents 20 [3, 5])).stored =
      (runEvents (initState 2 20 [] 0) (sessionEvents 20 [3, 5])).sessions :=
  full_session_appends_one_record 2 20 0 [] [3, 5] (by decide) (by decide) (by decide) (by decide) (by decide)
    (by decide)

/-- Claim C8: the streak computation is the spec's pure function of the day
set, and the three worked examples hold (today = day 20000). -/
theorem streak_spec_and_examples :
    (∀ (today : Int) (S : List SessionRecord), calcStreak today S = streakSpec today S) ∧
    calcStreak 20000 [⟨20000, 3, 40, [60], 600, 0⟩, ⟨19999, 3, 40, [60], 600, 0⟩,
      ⟨19998, 3, 40, [60], 600, 0⟩] = 3 ∧
    calcStreak 20000 [⟨19998, 3, 40, [60], 600, 0⟩, ⟨19997, 3, 40, [60], 600, 0⟩] = 0 ∧
    calcStreak 20000 [⟨20000, 3, 40, [60], 600, 0⟩, ⟨19998, 3, 40, [60], 600, 0⟩] = 1 :=
  ⟨calcStreak_eq_spec, by decide, by decide, by decide⟩
